import Mathlib

/-!
Shallow embedding of `src/main.go` (bip9checker).

The program maintains a Go `map[int]int` (`blockIndex`) from block-version
value to a count of blocks carrying that version over a trailing window of
`interval` blocks, updates it incrementally in the polling loop of `main`,
and computes the next difficulty-retarget boundary with
`GetNextBlockRetarget`.

Modelling choices:
- Go `int` is modelled as `Int` (heights and versions stay far from the
  64-bit bounds in every statement below, so overflow is immaterial).
- the Go map is modelled as an association list with Go map semantics:
  `hget` is map indexing (zero value `0` for a missing key), `hbump h v d`
  is `blockIndex[v] += d` (inserting a fresh key with value `d`, matching
  Go's read-of-zero-then-store), `sumValues` is the sum of all stored
  counts (as in `PrintBlockSummary`).
- `GetBlockCollated` (an RPC fetch of a block's version) is modelled as a
  capability `fetch : Int → Option Int`; `none` is a failed fetch.
  `GetBlockCollated` returns the Go zero value `0` alongside its error,
  which matters in the initial scan (`fetchOrZero`).
- counted `for` loops over integer bounds are modelled by structural
  recursion on the number of iterations the bounds determine, so every
  definition evaluates by kernel reduction:
  - the initial scan `for ; blockStart <= currentHeight; blockStart++`
    runs `interval` times (`(interval).toNat`) from
    `currentHeight - interval + 1` (`scanN`);
  - the add loop `for i := newHeight; i > currentHeight; i--` runs
    `(newHeight - currentHeight).toNat` times downwards from `newHeight`
    (`addN`);
  - the remove loop
    `for i := newHeight - interval; i < (newHeight-interval)+diff; i++`
    runs `(newHeight - currentHeight).toNat` times upwards from
    `newHeight - interval` (`removeN`).
  `GetNextBlockRetarget`'s loop steps by a non-unit stride, so it is kept
  as direct well-founded recursion (`retargetLoop`).
- in the add and remove loops `main` reacts to a fetch error with
  `log.Fatal`, which terminates the process: the whole advance fails and
  no updated state is ever produced. This is modelled by `advance`
  returning `none`. In the initial scan the error is merely logged and the
  iteration still tallies the zero value, so `initScan` is total.
- the polling loop calls the add/remove code only when
  `newHeight != currentHeight` and otherwise sleeps; `advance` models one
  poll iteration, so the equal-height case is the identity.
-/

namespace Bip9

/-- Go constant `BLOCK_RETARGET_INTERVAL = 2016`. -/
def BLOCK_RETARGET_INTERVAL : Int := 2016

/-- Go constant `BLOCK_BIP9_INTERVAL = 2016 * 4`, the window size `main` uses. -/
def BLOCK_BIP9_INTERVAL : Int := 2016 * 4

/-- The version histogram: Go `map[int]int` as an association list. -/
abbrev Hist := List (Int × Int)

/-- Go map indexing `blockIndex[v]`: the stored count, or the zero value `0`
for a missing key. -/
def hget : Hist → Int → Int
  | [], _ => 0
  | p :: t, v => if p.1 = v then p.2 else hget t v

/-- Go `blockIndex[v] += d`: update the entry for `v`, inserting `0 + d`
when the key is absent. -/
def hbump : Hist → Int → Int → Hist
  | [], v, d => [(v, d)]
  | p :: t, v, d => if p.1 = v then (p.1, p.2 + d) :: t else p :: hbump t v d

/-- Sum of all counts in the histogram, as accumulated by
`PrintBlockSummary`'s `totalBlocks`. -/
def sumValues : Hist → Int
  | [] => 0
  | p :: t => p.2 + sumValues t

/-- The version value the initial scan tallies for height `i`:
`GetBlockCollated`'s result, or its Go zero return value `0` when the fetch
fails (the error is only logged there). -/
def fetchOrZero (fetch : Int → Option Int) (i : Int) : Int :=
  (fetch i).getD 0

/-- The initial scan loop of `main` (lines 193–200): `n` remaining
iterations, current loop variable `i`; each iteration tallies
`fetchOrZero fetch i`. -/
def scanN (fetch : Int → Option Int) : Nat → Int → Hist → Hist
  | 0, _, h => h
  | n + 1, i, h => scanN fetch n (i + 1) (hbump h (fetchOrZero fetch i) 1)

/-- The initial window scan: heights `currentHeight - interval + 1` through
`currentHeight`, i.e. `interval` iterations. -/
def initScan (fetch : Int → Option Int) (currentHeight interval : Int) : Hist :=
  scanN fetch interval.toNat (currentHeight - interval + 1) []

/-- The engine state: `main`'s `currentHeight`, `interval` and `blockIndex`. -/
structure WindowState where
  currentHeight : Int
  interval : Int
  histogram : Hist
deriving DecidableEq

/-- The state `main` holds after its initial scan. -/
def initWindow (fetch : Int → Option Int) (currentHeight interval : Int) : WindowState :=
  ⟨currentHeight, interval, initScan fetch currentHeight interval⟩

/-- The add loop of `main` (lines 214–222): `n` remaining iterations,
downward loop variable `i`; a fetch failure is `log.Fatal`, so the whole
call yields `none`. -/
def addN (fetch : Int → Option Int) : Nat → Int → Hist → Option Hist
  | 0, _, h => some h
  | n + 1, i, h =>
    match fetch i with
    | none => none
    | some v => addN fetch n (i - 1) (hbump h v 1)

/-- The remove loop of `main` (lines 224–231): `n` remaining iterations,
upward loop variable `i`; a fetch failure is `log.Fatal`, so the whole call
yields `none`. -/
def removeN (fetch : Int → Option Int) : Nat → Int → Hist → Option Hist
  | 0, _, h => some h
  | n + 1, i, h =>
    match fetch i with
    | none => none
    | some v => removeN fetch n (i + 1) (hbump h v (-1))

/-- One iteration of `main`'s polling loop (lines 210–236) for a freshly
polled `newHeight`: when it equals `currentHeight` the program only sleeps;
otherwise it runs the add loop from `newHeight` down to
`currentHeight + 1`, then the remove loop from `newHeight - interval` for
`diff = newHeight - currentHeight` iterations, then sets
`currentHeight = newHeight`. -/
def advance (fetch : Int → Option Int) (st : WindowState) (newHeight : Int) :
    Option WindowState :=
  if newHeight = st.currentHeight then some st
  else
    match addN fetch (newHeight - st.currentHeight).toNat newHeight st.histogram with
    | none => none
    | some h1 =>
      match removeN fetch (newHeight - st.currentHeight).toNat (newHeight - st.interval) h1 with
      | none => none
      | some h2 => some ⟨newHeight, st.interval, h2⟩

/-- The loop of `GetNextBlockRetarget` (lines 170–179):
`for i := 0; i < blockNum; i += BLOCK_RETARGET_INTERVAL { iterations++ }`. -/
def retargetLoop (blockNum i iterations : Int) : Int :=
  if i < blockNum then
    retargetLoop blockNum (i + BLOCK_RETARGET_INTERVAL) (iterations + 1)
  else iterations
termination_by (blockNum - i).toNat
decreasing_by
  simp only [BLOCK_RETARGET_INTERVAL] at *
  omega

/-- `GetNextBlockRetarget` (lines 170–179): run the loop, bump `iterations`
when it landed exactly on `blockNum`, and scale by the interval. -/
def GetNextBlockRetarget (blockNum : Int) : Int :=
  (if retargetLoop blockNum 0 0 * BLOCK_RETARGET_INTERVAL = blockNum then
    retargetLoop blockNum 0 0 + 1
  else retargetLoop blockNum 0 0) * BLOCK_RETARGET_INTERVAL

/-- The states reachable by one initial scan followed by any number of
successful polling-loop advances whose target height respects the
monotonicity precondition `currentHeight ≤ newHeight`. -/
inductive Reachable : WindowState → Prop
  | init (fetch : Int → Option Int) (height interval : Int) :
      Reachable (initWindow fetch height interval)
  | step (fetch : Int → Option Int) (st st' : WindowState) (newHeight : Int) :
      Reachable st → st.currentHeight ≤ newHeight →
      advance fetch st newHeight = some st' → Reachable st'

/-- A total fetch function assigning each height its own value as version;
used as concrete test data. -/
def fetchId : Int → Option Int := fun i => some i

/-- A fetch function that fails exactly at height 12. -/
def fetchFail12 : Int → Option Int := fun i => if i = 12 then none else some i

/-- A fetch function that fails exactly at height 14. -/
def fetchFail14 : Int → Option Int := fun i => if i = 14 then none else some i

/-- Number of heights among `i, i+1, …, i+n-1` whose tallied version
(`fetchOrZero`) equals `v`. -/
def countN (fetch : Int → Option Int) (v : Int) : Nat → Int → Int
  | 0, _ => 0
  | n + 1, i => (if fetchOrZero fetch i = v then 1 else 0) + countN fetch v n (i + 1)

/-! Lemmas about the histogram operations. -/

theorem sumValues_hbump (h : Hist) (v d : Int) :
    sumValues (hbump h v d) = sumValues h + d := by
  induction h with
  | nil => simp [hbump, sumValues]
  | cons p t ih =>
    by_cases hp : p.1 = v
    · simp only [hbump, if_pos hp, sumValues]
      ring
    · simp only [hbump, if_neg hp, sumValues, ih]
      ring

theorem hget_hbump (h : Hist) (w d v : Int) :
    hget (hbump h w d) v = hget h v + (if w = v then d else 0) := by
  induction h with
  | nil =>
    by_cases hv : w = v <;> simp [hbump, hget, hv]
  | cons p t ih =>
    by_cases hp : p.1 = w
    · subst hp
      by_cases hv : p.1 = v <;> simp [hbump, hget, hv]
    · have hbu : hbump (p :: t) w d = p :: hbump t w d := by
        simp [hbump, hp]
      by_cases hv : p.1 = v
      · have hwv : ¬ w = v := fun he => hp (hv.trans he.symm)
        simp [hbu, hget, hv, hwv]
      · simp [hbu, hget, hv, ih]

theorem scanN_sum (fetch : Int → Option Int) :
    ∀ (n : Nat) (i : Int) (h : Hist),
      sumValues (scanN fetch n i h) = sumValues h + n := by
  intro n
  induction n with
  | zero => intro i h; simp [scanN]
  | succ n ih =>
    intro i h
    rw [scanN, ih, sumValues_hbump]
    push_cast
    ring

theorem scanN_hget (fetch : Int → Option Int) :
    ∀ (n : Nat) (i : Int) (h : Hist) (v : Int),
      hget (scanN fetch n i h) v = hget h v + countN fetch v n i := by
  intro n
  induction n with
  | zero => intro i h v; simp [scanN, countN]
  | succ n ih =>
    intro i h v
    rw [scanN, ih, countN, hget_hbump]
    ring

theorem countN_nonneg (fetch : Int → Option Int) (v : Int) :
    ∀ (n : Nat) (i : Int), 0 ≤ countN fetch v n i := by
  intro n
  induction n with
  | zero => intro i; simp [countN]
  | succ n ih =>
    intro i
    rw [countN]
    have := ih (i + 1)
    split <;> omega

theorem countN_pos (fetch : Int → Option Int) (v i0 : Int) :
    ∀ (n : Nat) (i : Int), i ≤ i0 → i0 < i + (n : Int) →
      fetchOrZero fetch i0 = v → 1 ≤ countN fetch v n i := by
  intro n
  induction n with
  | zero => intro i hle hlt _; omega
  | succ n ih =>
    intro i hle hlt hv
    rw [countN]
    by_cases he : i = i0
    · subst he
      rw [if_pos hv]
      have := countN_nonneg fetch v n (i + 1)
      omega
    · have h1 : i + 1 ≤ i0 := by omega
      have h2 : i0 < (i + 1) + (n : Int) := by push_cast at hlt; omega
      have := ih (i + 1) h1 h2 hv
      split <;> omega

theorem addN_sum (fetch : Int → Option Int) :
    ∀ (n : Nat) (i : Int) (h h' : Hist), addN fetch n i h = some h' →
      sumValues h' = sumValues h + n := by
  intro n
  induction n with
  | zero =>
    intro i h h' he
    simp only [addN, Option.some.injEq] at he
    simp [← he]
  | succ n ih =>
    intro i h h' he
    rw [addN] at he
    cases hf : fetch i with
    | none => rw [hf] at he; simp at he
    | some v =>
      rw [hf] at he
      have := ih (i - 1) (hbump h v 1) h' he
      rw [this, sumValues_hbump]
      push_cast
      ring

theorem removeN_sum (fetch : Int → Option Int) :
    ∀ (n : Nat) (i : Int) (h h' : Hist), removeN fetch n i h = some h' →
      sumValues h' = sumValues h - n := by
  intro n
  induction n with
  | zero =>
    intro i h h' he
    simp only [removeN, Option.some.injEq] at he
    simp [← he]
  | succ n ih =>
    intro i h h' he
    rw [removeN] at he
    cases hf : fetch i with
    | none => rw [hf] at he; simp at he
    | some v =>
      rw [hf] at he
      have := ih (i + 1) (hbump h v (-1)) h' he
      rw [this, sumValues_hbump]
      push_cast
      ring

theorem advance_some_inv (fetch : Int → Option Int) (st st' : WindowState)
    (newHeight : Int) (he : advance fetch st newHeight = some st') :
    st'.interval = st.interval ∧ sumValues st'.histogram = sumValues st.histogram := by
  by_cases hm : newHeight = st.currentHeight
  · rw [advance, if_pos hm] at he
    simp only [Option.some.injEq] at he
    rw [← he]
    exact ⟨rfl, rfl⟩
  · rw [advance, if_neg hm] at he
    cases hadd : addN fetch (newHeight - st.currentHeight).toNat newHeight st.histogram with
    | none => simp only [hadd] at he; exact Option.noConfusion he
    | some h1 =>
      simp only [hadd] at he
      cases hrem : removeN fetch (newHeight - st.currentHeight).toNat
          (newHeight - st.interval) h1 with
      | none => simp only [hrem] at he; exact Option.noConfusion he
      | some h2 =>
        simp only [hrem, Option.some.injEq] at he
        have hs1 := addN_sum fetch _ _ _ _ hadd
        have hs2 := removeN_sum fetch _ _ _ _ hrem
        rw [← he]
        refine ⟨rfl, ?_⟩
        simp only
        omega

theorem addN_total (fetch : Int → Option Int) (htot : ∀ j, (fetch j).isSome) :
    ∀ (n : Nat) (i : Int) (h : Hist), ∃ h', addN fetch n i h = some h' := by
  intro n
  induction n with
  | zero => intro i h; exact ⟨h, rfl⟩
  | succ n ih =>
    intro i h
    cases hf : fetch i with
    | none =>
      have := htot i
      rw [hf] at this
      simp at this
    | some v =>
      obtain ⟨h', he⟩ := ih (i - 1) (hbump h v 1)
      exact ⟨h', by rw [addN, hf]; exact he⟩

theorem removeN_total (fetch : Int → Option Int) (htot : ∀ j, (fetch j).isSome) :
    ∀ (n : Nat) (i : Int) (h : Hist), ∃ h', removeN fetch n i h = some h' := by
  intro n
  induction n with
  | zero => intro i h; exact ⟨h, rfl⟩
  | succ n ih =>
    intro i h
    cases hf : fetch i with
    | none =>
      have := htot i
      rw [hf] at this
      simp at this
    | some v =>
      obtain ⟨h', he⟩ := ih (i + 1) (hbump h v (-1))
      exact ⟨h', by rw [removeN, hf]; exact he⟩

theorem addN_fail (fetch : Int → Option Int) :
    ∀ (n : Nat) (i : Int), (∃ k : Nat, k < n ∧ fetch (i - (k : Int)) = none) →
      ∀ h, addN fetch n i h = none := by
  intro n
  induction n with
  | zero =>
    rintro i ⟨k, hk, _⟩
    omega
  | succ n ih =>
    rintro i ⟨k, hk, hnone⟩ h
    cases hf : fetch i with
    | none => rw [addN, hf]
    | some v =>
      have hk0 : k ≠ 0 := by
        intro h0
        subst h0
        simp only [Nat.cast_zero, sub_zero] at hnone
        rw [hf] at hnone
        exact Option.noConfusion hnone
      rw [addN, hf]
      apply ih
      refine ⟨k - 1, by omega, ?_⟩
      have harg : i - 1 - ((k - 1 : Nat) : Int) = i - (k : Int) := by omega
      rw [harg]
      exact hnone

theorem removeN_fail (fetch : Int → Option Int) :
    ∀ (n : Nat) (i : Int), (∃ k : Nat, k < n ∧ fetch (i + (k : Int)) = none) →
      ∀ h, removeN fetch n i h = none := by
  intro n
  induction n with
  | zero =>
    rintro i ⟨k, hk, _⟩
    omega
  | succ n ih =>
    rintro i ⟨k, hk, hnone⟩ h
    cases hf : fetch i with
    | none => rw [removeN, hf]
    | some v =>
      have hk0 : k ≠ 0 := by
        intro h0
        subst h0
        simp only [Nat.cast_zero, add_zero] at hnone
        rw [hf] at hnone
        exact Option.noConfusion hnone
      rw [removeN, hf]
      apply ih
      refine ⟨k - 1, by omega, ?_⟩
      have harg : i + 1 + ((k - 1 : Nat) : Int) = i + (k : Int) := by omega
      rw [harg]
      exact hnone

/-! The retarget loop: closed form. -/

theorem retargetLoop_closed :
    ∀ (k : Nat) (bn i acc : Int), (bn - i).toNat ≤ k →
      retargetLoop bn i acc = acc + (if i < bn then (bn - i + 2015) / 2016 else 0) := by
  intro k
  induction k with
  | zero =>
    intro bn i acc hk
    have hni : ¬ i < bn := by omega
    unfold retargetLoop
    simp [hni]
  | succ k ih =>
    intro bn i acc hk
    by_cases hlt : i < bn
    · unfold retargetLoop
      rw [if_pos hlt, if_pos hlt]
      simp only [BLOCK_RETARGET_INTERVAL]
      rw [ih bn (i + 2016) (acc + 1) (by omega)]
      split_ifs with h2 <;> omega
    · unfold retargetLoop
      simp [hlt]

theorem retargetLoop_zero (bn : Int) :
    retargetLoop bn 0 0 = if 0 < bn then (bn + 2015) / 2016 else 0 := by
  have h := retargetLoop_closed (bn).toNat bn 0 0 (by omega)
  simpa using h

/-! Theorems for the claims. -/

/-- C2: for every state reachable by an initial scan followed by
successful advances respecting the precondition
`currentHeight ≤ newHeight`, the counts in the histogram sum to the window
size (stated for a non-negative window size; `main` uses
`BLOCK_BIP9_INTERVAL = 8064`). -/
theorem reachable_sum_invariant :
    ∀ st : WindowState, Reachable st → 0 ≤ st.interval →
      sumValues st.histogram = st.interval := by
  intro st hr
  induction hr with
  | init fetch height interval =>
    intro h0
    have h0' : 0 ≤ interval := h0
    show sumValues (initScan fetch height interval) = interval
    rw [initScan, scanN_sum]
    simp only [sumValues]
    omega
  | step fetch st st' newHeight hre hle hadv ih =>
    intro h0
    obtain ⟨hint, hsum⟩ := advance_some_inv fetch st st' newHeight hadv
    rw [hsum, hint]
    exact ih (by omega)

/-- Witness for C2 at a concrete reachable state: window size 4 ending at
height 13, versions equal to heights. -/
theorem reachable_sum_invariant_witness :
    sumValues (initWindow fetchId 13 4).histogram = (initWindow fetchId 13 4).interval :=
  reachable_sum_invariant (initWindow fetchId 13 4)
    (Reachable.init fetchId 13 4) (by decide)

/-- C9: polling a height equal to the current height is a no-op for any
fetch function (so in particular no fetch is consulted): the state is
returned unchanged. -/
theorem advance_noop_eq_height :
    ∀ (fetch : Int → Option Int) (st : WindowState),
      advance fetch st st.currentHeight = some st := by
  intro fetch st
  rw [advance, if_pos rfl]

/-- C8 counterexample: calling the polling step with `newHeight = 12` on a
state at `currentHeight = 13` does not fail with any error; it succeeds
and lowers `currentHeight` to 12 (the histogram is untouched). This
refutes the claim that an `InvariantViolation` is raised and that
`currentHeight` is left unmodified. -/
theorem advance_below_height_cex :
    advance fetchId ⟨13, 4, [(1, 4)]⟩ 12 = some ⟨12, 4, [(1, 4)]⟩ := by decide

/-- C8 amended: when `Advance` is called with `newHeight < currentHeight`,
no error is raised; both loops run zero iterations, so the histogram is
returned unchanged (in particular no count is decremented below zero), and
`currentHeight` is set to `newHeight`. -/
theorem advance_below_height_amended :
    ∀ (fetch : Int → Option Int) (st : WindowState) (newHeight : Int),
      newHeight < st.currentHeight →
      advance fetch st newHeight = some ⟨newHeight, st.interval, st.histogram⟩ := by
  intro fetch st newHeight hlt
  have hne : newHeight ≠ st.currentHeight := by omega
  have h0 : (newHeight - st.currentHeight).toNat = 0 := by omega
  rw [advance, if_neg hne, h0]
  rfl

/-- Witness for the amended C8 at a concrete input. -/
theorem advance_below_height_amended_witness :
    advance fetchId ⟨13, 4, [(1, 4)]⟩ 11 = some ⟨11, 4, [(1, 4)]⟩ :=
  advance_below_height_amended fetchId ⟨13, 4, [(1, 4)]⟩ 11 (by decide)

/-- C1 evaluated at its failing input (window size 4, version of height
`h` equal to `h`, initial scan at height 13, advance to 15, so delta = 2):
the advance leaves the count of version 10 at 1 and drives the count of
version 12 to 0, while a fresh initial scan at height 15 has count 0 for
version 10 and 1 for version 12 — the code decrements heights
`newHeight - W … newHeight - W + delta - 1` (11 and 12) instead of the
claimed `oldWindowStart … oldWindowStart + delta - 1` (10 and 11), and the
result does not match a from-scratch scan. -/
theorem advance_removal_offbyone_eval :
    (advance fetchId (initWindow fetchId 13 4) 15).map (fun st => hget st.histogram 10)
        = some 1 ∧
    (advance fetchId (initWindow fetchId 13 4) 15).map (fun st => hget st.histogram 12)
        = some 0 ∧
    hget (initScan fetchId 15 4) 10 = 0 ∧
    hget (initScan fetchId 15 4) 12 = 1 := by decide

/-- C3 evaluated at its failing input: window size 4, version of height
`h` equal to `h`, initial scan at height 10, then two successful advances
10 → 13 and 13 → 14 (both respecting the precondition). Height 10 is
decremented by both advances (the off-by-one removal loop), so the count
of version 10 ends at −1: a histogram value is negative after successful
calls. -/
theorem advance_negative_count_eval :
    ((advance fetchId (initWindow fetchId 10 4) 13).bind
        (fun st => advance fetchId st 14)).map (fun st => hget st.histogram 10)
      = some (-1) := by decide

/-- C5 evaluated at its failing input (Scenario C: window size 4, delta =
5 ≥ W, versions equal to heights, initial scan at 13, advance to 18): the
code does not re-run the initial scan; it adds heights 14–18 and then
removes the very same heights 14–18, leaving the histogram still counting
heights 10–13, whereas a from-scratch scan at 18 counts heights 15–18. -/
theorem advance_full_rotation_eval :
    (advance fetchId (initWindow fetchId 13 4) 18).map (fun st => hget st.histogram 15)
        = some 0 ∧
    (advance fetchId (initWindow fetchId 13 4) 18).map (fun st => hget st.histogram 10)
        = some 1 ∧
    hget (initScan fetchId 18 4) 15 = 1 ∧
    hget (initScan fetchId 18 4) 10 = 0 := by decide

/-- C7 evaluated at its failing input: initial scan at height 13 with
window size 4 where the fetch for height 12 fails. The scan does not fail
as a whole: it produces a complete histogram with sum 4 in which the
failed height is tallied under version 0 (and version 12 is absent). -/
theorem initScan_fetch_failure_eval :
    sumValues (initScan fetchFail12 13 4) = 4 ∧
    hget (initScan fetchFail12 13 4) 0 = 1 ∧
    hget (initScan fetchFail12 13 4) 12 = 0 := by decide

/-- C10: during the initial window scan a failed fetch is still tallied:
the loop continues with `GetBlockCollated`'s zero return value, so the sum
of the histogram still ends up equal to the window size and the failed
height is attributed to version 0 (count at key 0 at least 1). -/
theorem initScan_failed_fetch_tallied :
    ∀ (fetch : Int → Option Int) (curH W i0 : Int),
      0 ≤ W → fetch i0 = none → curH - W + 1 ≤ i0 → i0 ≤ curH →
      sumValues (initScan fetch curH W) = W ∧ 1 ≤ hget (initScan fetch curH W) 0 := by
  intro fetch curH W i0 hW hnone hlo hhi
  constructor
  · rw [initScan, scanN_sum]
    simp only [sumValues]
    omega
  · rw [initScan, scanN_hget]
    simp only [hget]
    have hv : fetchOrZero fetch i0 = 0 := by rw [fetchOrZero, hnone]; rfl
    have := countN_pos fetch 0 i0 W.toNat (curH - W + 1) (by omega) (by omega) hv
    omega

/-- Witness for C10: scan at height 13, window size 4, fetch failing at
height 12. -/
theorem initScan_failed_fetch_tallied_witness :
    sumValues (initScan fetchFail12 13 4) = 4 ∧ 1 ≤ hget (initScan fetchFail12 13 4) 0 :=
  initScan_failed_fetch_tallied fetchFail12 13 4 12 (by decide) (by decide)
    (by decide) (by decide)

/-- C6: if the fetch for any height the advance touches (an added height in
`(currentHeight, newHeight]` or a removed height in
`[newHeight - W, newHeight - W + delta)`) fails, the whole call fails —
`log.Fatal` is modelled as producing no state, so no partially updated
state is ever observable and the pre-call state value is untouched — and
calling `advance` again on that same pre-call state with a fetch function
whose fetches all succeed produces a state. -/
theorem advance_failure_atomic_retry :
    ∀ (fetch fetchR : Int → Option Int) (st : WindowState) (n : Int),
      ((∃ i : Int, st.currentHeight < i ∧ i ≤ n ∧ fetch i = none) ∨
       (∃ i : Int, n - st.interval ≤ i ∧
          i < n - st.interval + (n - st.currentHeight) ∧ fetch i = none)) →
      advance fetch st n = none ∧
      ((∀ j, (fetchR j).isSome) → ∃ st', advance fetchR st n = some st') := by
  intro fetch fetchR st n hfail
  have hlt : st.currentHeight < n := by
    rcases hfail with ⟨i, h1, h2, _⟩ | ⟨i, h1, h2, _⟩ <;> omega
  have hne : n ≠ st.currentHeight := by omega
  constructor
  · rcases hfail with ⟨i, h1, h2, hnone⟩ | ⟨i, h1, h2, hnone⟩
    · have hadd : addN fetch (n - st.currentHeight).toNat n st.histogram = none := by
        apply addN_fail
        refine ⟨(n - i).toNat, by omega, ?_⟩
        have harg : n - (((n - i).toNat : Nat) : Int) = i := by omega
        rw [harg]
        exact hnone
      rw [advance, if_neg hne, hadd]
    · cases hadd : addN fetch (n - st.currentHeight).toNat n st.histogram with
      | none => rw [advance, if_neg hne, hadd]
      | some h1 =>
        have hrem : removeN fetch (n - st.currentHeight).toNat (n - st.interval) h1
            = none := by
          apply removeN_fail
          refine ⟨(i - (n - st.interval)).toNat, by omega, ?_⟩
          have harg : n - st.interval + (((i - (n - st.interval)).toNat : Nat) : Int) = i := by
            omega
          rw [harg]
          exact hnone
        rw [advance, if_neg hne]
        simp only [hadd, hrem]
  · intro htot
    obtain ⟨h1, he1⟩ := addN_total fetchR htot (n - st.currentHeight).toNat n st.histogram
    obtain ⟨h2, he2⟩ := removeN_total fetchR htot (n - st.currentHeight).toNat
      (n - st.interval) h1
    exact ⟨⟨n, st.interval, h2⟩, by rw [advance, if_neg hne]; simp only [he1, he2]⟩

/-- Witness for C6: advance from the scanned state at height 13 (window
size 4) to height 14 with a fetch failing at the added height 14 fails;
the same advance from the same state with the total fetch succeeds. -/
theorem advance_failure_atomic_retry_witness :
    advance fetchFail14 (initWindow fetchId 13 4) 14 = none ∧
    ∃ st', advance fetchId (initWindow fetchId 13 4) 14 = some st' := by
  have h := advance_failure_atomic_retry fetchFail14 fetchId (initWindow fetchId 13 4) 14
    (Or.inl ⟨14, by decide, by decide, by decide⟩)
  exact ⟨h.1, h.2 (fun j => rfl)⟩

/-- C4: `GetNextBlockRetarget h` equals `(h / 2016 + 1) * 2016` for every
non-negative height, and in particular takes the values 4032, 2016 and
2016 at heights 2016, 2015 and 0. -/
theorem nextRetarget_formula :
    (∀ h : Int, 0 ≤ h → GetNextBlockRetarget h = (h / 2016 + 1) * 2016) ∧
    GetNextBlockRetarget 2016 = 4032 ∧
    GetNextBlockRetarget 2015 = 2016 ∧
    GetNextBlockRetarget 0 = 2016 := by
  have hgen : ∀ h : Int, 0 ≤ h → GetNextBlockRetarget h = (h / 2016 + 1) * 2016 := by
    intro h h0
    rw [GetNextBlockRetarget, retargetLoop_zero]
    simp only [BLOCK_RETARGET_INTERVAL]
    by_cases hpos : 0 < h
    · rw [if_pos hpos]
      split_ifs with hmul <;> omega
    · have hz : h = 0 := by omega
      subst hz
      norm_num
  refine ⟨hgen, ?_, ?_, ?_⟩
  · rw [hgen 2016 (by norm_num)]; norm_num
  · rw [hgen 2015 (by norm_num)]; norm_num
  · rw [hgen 0 (by norm_num)]; norm_num

/-- Witness for C4 at height 5000: 5000 / 2016 = 2, so the next retarget
is 6048. -/
theorem nextRetarget_formula_witness :
    GetNextBlockRetarget 5000 = ((5000 : Int) / 2016 + 1) * 2016 :=
  nextRetarget_formula.1 5000 (by norm_num)

end Bip9
